import Mathlib

/-!
Verification of the streaming `cat` orchestrator of `src/cat.rs`.

The orchestrator composes three external collaborators (the Resolver, the
Block Store and the Walk Capability of the `ipfs` crate) into a lazily
produced stream of byte chunks.  The collaborators are modelled as explicit
parameters: the Walk Capability as a structure of functions (`WalkCap`), the
Block Store as a function `Cid → Except LoadError Block`, the Resolver as a
function on paths.  Bytes are `List Nat`, identifiers are `Nat`, the error
payloads of the collaborators are opaque `Nat`s.

The body of the `stream!` block of `cat` is embedded as a fuel-indexed
recursion producing a trace of events (a block fetch, a yielded chunk, a
yielded error); the item sequence the consumer sees is the projection of the
trace to the yield events.
-/

namespace CasperArchiver

abbrev Bytes := List Nat

abbrev Cid := Nat

/-- An immutable (identifier, raw bytes) pair, as returned by the block
store and destructured by `cat` (`let Block { cid, data } = ...`). -/
structure Block where
  cid : Cid
  data : Bytes
deriving DecidableEq, Repr

abbrev ResolveError := Nat

abbrev PathError := Nat

abbrev WalkError := Nat

abbrev LoadError := Nat

/-- Embedding of `ipfs::unixfs::TraversalFailed`: the error type of `cat`, both for the
synchronous setup part and for the terminal stream item. -/
inductive TraversalFailed where
  | Resolving (e : ResolveError)
  | Path (e : PathError)
  | Walking (cid : Cid) (e : WalkError)
  | Loading (cid : Cid) (e : LoadError)
deriving DecidableEq, Repr

/-- Embedding of `std::ops::Range<u64>`: half-open interval `[start, stop)` (the Rust
field `end` is a Lean keyword, hence `stop`). -/
structure Range where
  start : Nat
  stop : Nat
deriving DecidableEq, Repr

/-- Embedding of `ipfs::unixfs::StartingPoint`: either a path expression to resolve
(`Left`) or an already resolved root block (`Right`). -/
inductive StartingPoint (P : Type) where
  | Left (path : P)
  | Right (block : Block)

/-- The Walk Capability (`IdleFileVisit` / `FileVisit` of `ipfs-unixfs`),
as consumed by `cat`:
`I` is the idle-visit type, `V` the in-progress visitor state, `C` the
decode cache.  `start` returns (leading chunk, file size, metadata, next
visitor state); `pending_links` returns (next child id, remaining count);
`continue_walk` consumes the visitor state, the fetched block bytes and the
cache, returning (chunk, next visitor state, updated cache). -/
structure WalkCap (I V C : Type) where
  default : I
  with_target_range : I → Range → I
  start : I → Bytes → Except WalkError (Bytes × Nat × Unit × Option V)
  pending_links : V → Cid × Nat
  continue_walk : V → Bytes → Option C → Except WalkError (Bytes × Option V × Option C)

/-- One item of the returned stream: `Result<Vec<u8>, TraversalFailed>`. -/
abbrev Item := Except TraversalFailed Bytes

instance instDecEqExcept {ε α : Type} [DecidableEq ε] [DecidableEq α] :
    DecidableEq (Except ε α) := fun a b =>
  match a, b with
  | .error e1, .error e2 =>
    if h : e1 = e2 then .isTrue (by rw [h]) else .isFalse (fun hc => h (Except.error.inj hc))
  | .ok a1, .ok a2 =>
    if h : a1 = a2 then .isTrue (by rw [h]) else .isFalse (fun hc => h (Except.ok.inj hc))
  | .error _, .ok _ => .isFalse (fun hc => Except.noConfusion hc)
  | .ok _, .error _ => .isFalse (fun hc => Except.noConfusion hc)

/-- One observable event of the stream body: a block fetch issued to the
block store, a yielded chunk, or a yielded terminal error. -/
inductive Event where
  | fetch (cid : Cid)
  | yieldOk (chunk : Bytes)
  | yieldErr (e : TraversalFailed)
deriving DecidableEq, Repr

/-- The suspended stream returned by `cat` on success: the captured leading
chunk (already filtered to be nonempty), the optional initial visitor state
and the decode cache (`let mut cache = None`). -/
structure CatStream (V C : Type) where
  leading : Option Bytes
  visit : Option V
  cache : Option C

/-- The `loop` of the `stream!` block in `cat` (lines 74-108 of
`src/cat.rs`), instrumented with the fetches it issues.  Each iteration asks
`pending_links` for the next block, fetches it, and advances the walk;
the fuel bounds the number of iterations (the real loop runs until the walk
capability reports completion or an error). -/
def walkEvents {I V C : Type} (W : WalkCap I V C) (store : Cid → Except LoadError Block) :
    Nat → V → Option C → List Event
  | 0, _, _ => []
  | fuel + 1, visit, cache =>
    let next := (W.pending_links visit).1
    Event.fetch next ::
      match store next with
      | .error e => [Event.yieldErr (.Loading next e)]
      | .ok b =>
        match W.continue_walk visit b.data cache with
        | .error e => [Event.yieldErr (.Walking b.cid e)]
        | .ok (bytes, nextVisit, cache') =>
          (if bytes.isEmpty then [] else [Event.yieldOk bytes]) ++
            match nextVisit with
            | some v => walkEvents W store fuel v cache'
            | none => []

/-- Project a trace to the items the consumer receives. -/
def yieldsOf : List Event → List Item
  | [] => []
  | Event.fetch _ :: rest => yieldsOf rest
  | Event.yieldOk b :: rest => Except.ok b :: yieldsOf rest
  | Event.yieldErr e :: rest => Except.error e :: yieldsOf rest

/-- Project a trace to the block fetches it issues, in order. -/
def fetchesOf : List Event → List Cid
  | [] => []
  | Event.fetch c :: rest => c :: fetchesOf rest
  | Event.yieldOk _ :: rest => fetchesOf rest
  | Event.yieldErr _ :: rest => fetchesOf rest

/-- The items produced by the walk loop. -/
def walkItems {I V C : Type} (W : WalkCap I V C) (store : Cid → Except LoadError Block)
    (fuel : Nat) (v : V) (cache : Option C) : List Item :=
  yieldsOf (walkEvents W store fuel v cache)

/-- The full item sequence of the stream returned by `cat` (lines 63-109):
the captured leading chunk, if any, followed by the items of the loop
provided an initial visitor state exists. -/
def streamItems {I V C : Type} (W : WalkCap I V C) (store : Cid → Except LoadError Block)
    (fuel : Nat) (s : CatStream V C) : List Item :=
  (match s.leading with
   | some b => [Except.ok b]
   | none => []) ++
  (match s.visit with
   | some v => walkItems W store fuel v s.cache
   | none => [])

/-- Root acquisition (lines 25-38): resolve a path through the resolver and
convert to a unixfs block, or use the given block unchanged. -/
def resolveRoot {P R : Type} (resolve : P → Except ResolveError (R × List String))
    (into_unixfs_block : R → Except PathError Block) :
    StartingPoint P → Except TraversalFailed Block
  | .Left path =>
    match resolve path with
    | .error e => .error (.Resolving e)
    | .ok (resolved, _) =>
      match into_unixfs_block resolved with
      | .error e => .error (.Path e)
      | .ok b => .ok b
  | .Right block => .ok block

/-- The setup part of `cat` after the idle visit has been configured:
acquire the root block, call `start` on its data (lines 40-56), capture the
leading chunk only if nonempty, and return the suspended stream. -/
def catFrom {I V C P R : Type} (W : WalkCap I V C) (visit : I)
    (resolve : P → Except ResolveError (R × List String))
    (into_unixfs_block : R → Except PathError Block)
    (sp : StartingPoint P) : Except TraversalFailed (CatStream V C) :=
  match resolveRoot resolve into_unixfs_block sp with
  | .error e => .error e
  | .ok b =>
    match W.start visit b.data with
    | .ok (bytes, _, _, v) =>
      .ok { leading := if bytes.isEmpty then none else some bytes
            visit := v
            cache := none }
    | .error e => .error (.Walking b.cid e)

/-- The idle visit configured by lines 18-21: `IdleFileVisit::default()`,
with `with_target_range` applied when a range is supplied. -/
def initialVisit {I V C : Type} (W : WalkCap I V C) (range : Option Range) : I :=
  match range with
  | some r => W.with_target_range W.default r
  | none => W.default

/-- The function `cat` (lines 9-110): configure the idle visit from the optional range,
then run the setup.  On success the returned `CatStream` determines the
item sequence through `streamItems`. -/
def cat {I V C P R : Type} (W : WalkCap I V C)
    (resolve : P → Except ResolveError (R × List String))
    (into_unixfs_block : R → Except PathError Block)
    (sp : StartingPoint P) (range : Option Range) : Except TraversalFailed (CatStream V C) :=
  catFrom W (initialVisit W range) resolve into_unixfs_block sp

/-- The chunks of the `Ok` items of a sequence, in order. -/
def okChunks : List Item → List Bytes
  | [] => []
  | Except.ok b :: rest => b :: okChunks rest
  | Except.error _ :: rest => okChunks rest

/-- Number of `Err` items in a sequence. -/
def errCount : List Item → Nat
  | [] => 0
  | Except.ok _ :: rest => errCount rest
  | Except.error _ :: rest => errCount rest + 1

/-- The byte interval `[r.start, min r.stop (length of file))` of a file. -/
def rangeSlice (file : Bytes) (r : Range) : Bytes :=
  (file.drop r.start).take (r.stop - r.start)

/-- Bytes still to be produced from an optional visitor state, given an
abstraction `rem` of in-progress states. -/
def remOf {V : Type} (rem : V → Bytes) : Option V → Bytes
  | none => []
  | some v => rem v

/-- Steps still needed from an optional visitor state, given a termination
measure `meas` on in-progress states. -/
def measOf {V : Type} (meas : V → Nat) : Option V → Nat
  | none => 0
  | some v => meas v + 1

/-- The stepwise-decode contract of the Walk Capability together with a
block store: from every visitor state, the block named by `pending_links`
is available, `continue_walk` on its bytes succeeds, the produced chunk is
exactly the next piece of the remaining bytes, and the termination measure
strictly decreases. -/
def DecodesTo {I V C : Type} (W : WalkCap I V C) (store : Cid → Except LoadError Block)
    (rem : V → Bytes) (meas : V → Nat) : Prop :=
  ∀ (v : V) (c : Option C),
    ∃ b, store (W.pending_links v).1 = .ok b ∧
      ∃ chunk ov c', W.continue_walk v b.data c = .ok (chunk, ov, c') ∧
        chunk ++ remOf rem ov = rem v ∧
        ∀ v', ov = some v' → meas v' < meas v

lemma yieldsOf_append (l1 l2 : List Event) : yieldsOf (l1 ++ l2) = yieldsOf l1 ++ yieldsOf l2 := by
  induction l1 with
  | nil => rfl
  | cons e rest ih => cases e <;> simp [yieldsOf, ih]

lemma fetchesOf_append (l1 l2 : List Event) :
    fetchesOf (l1 ++ l2) = fetchesOf l1 ++ fetchesOf l2 := by
  induction l1 with
  | nil => rfl
  | cons e rest ih => cases e <;> simp [fetchesOf, ih]

lemma okChunks_append (l1 l2 : List Item) : okChunks (l1 ++ l2) = okChunks l1 ++ okChunks l2 := by
  induction l1 with
  | nil => rfl
  | cons e rest ih => cases e <;> simp [okChunks, ih]

lemma errCount_append (l1 l2 : List Item) :
    errCount (l1 ++ l2) = errCount l1 + errCount l2 := by
  induction l1 with
  | nil => simp [errCount]
  | cons e rest ih => cases e <;> simp [errCount, ih] <;> omega

/-- Under the stepwise-decode contract, the walk loop produces no error and
its chunks concatenate to exactly the remaining bytes of the starting
visitor state, for any fuel beyond the termination measure. -/
lemma walk_decode {I V C : Type} (W : WalkCap I V C) (store : Cid → Except LoadError Block)
    (rem : V → Bytes) (meas : V → Nat) (hW : DecodesTo W store rem meas) :
    ∀ (fuel : Nat) (v : V) (c : Option C), meas v < fuel →
      (okChunks (walkItems W store fuel v c)).flatten = rem v ∧
      errCount (walkItems W store fuel v c) = 0 := by
  intro fuel
  induction fuel with
  | zero => intro v c h; omega
  | succ fuel ih =>
    intro v c h
    obtain ⟨b, hb, chunk, ov, c', hcw, hrem, hmeas⟩ := hW v c
    cases ov with
    | none =>
      have hunf : walkItems W store (fuel + 1) v c =
          yieldsOf (if chunk.isEmpty then [] else [Event.yieldOk chunk]) := by
        simp [walkItems, walkEvents, hb, hcw, yieldsOf]
      rw [hunf]
      simp only [remOf] at hrem
      cases hch : chunk.isEmpty with
      | true =>
        simp [yieldsOf, okChunks, errCount, ← hrem, List.isEmpty_iff.mp hch]
      | false =>
        simp [yieldsOf, okChunks, errCount, ← hrem]
    | some v' =>
      have hunf : walkItems W store (fuel + 1) v c =
          yieldsOf ((if chunk.isEmpty then [] else [Event.yieldOk chunk]) ++
            walkEvents W store fuel v' c') := by
        simp [walkItems, walkEvents, hb, hcw, yieldsOf]
      have hlt : meas v' < fuel := by
        have := hmeas v' rfl
        omega
      obtain ⟨ihjoin, iherr⟩ := ih v' c' hlt
      rw [hunf]
      simp only [remOf] at hrem
      simp only [walkItems] at ihjoin iherr
      cases hch : chunk.isEmpty with
      | true =>
        simp [yieldsOf, okChunks, errCount, ihjoin, iherr, ← hrem,
          List.isEmpty_iff.mp hch]
      | false =>
        rw [yieldsOf_append]
        simp [yieldsOf, okChunks_append, okChunks, errCount_append, errCount,
          ihjoin, iherr, ← hrem]

/-- Under the stepwise-decode contract, the setup from a given idle visit
succeeds and the resulting stream's chunks concatenate to the leading chunk
followed by the remaining bytes of the initial visitor state. -/
lemma catFrom_decode {I V C P R : Type} (W : WalkCap I V C) (visit : I)
    (store : Cid → Except LoadError Block)
    (resolve : P → Except ResolveError (R × List String))
    (into_unixfs_block : R → Except PathError Block)
    (sp : StartingPoint P) (total : Bytes)
    (rem : V → Bytes) (meas : V → Nat)
    (root : Block) (leading : Bytes) (size : Nat) (v0 : Option V) (fuel : Nat)
    (hroot : resolveRoot resolve into_unixfs_block sp = .ok root)
    (hstart : W.start visit root.data = .ok (leading, size, (), v0))
    (hfile : leading ++ remOf rem v0 = total)
    (hW : DecodesTo W store rem meas)
    (hfuel : measOf meas v0 ≤ fuel) :
    ∃ s, catFrom W visit resolve into_unixfs_block sp = .ok s ∧
      (okChunks (streamItems W store fuel s)).flatten = total ∧
      errCount (streamItems W store fuel s) = 0 := by
  refine ⟨⟨if leading.isEmpty then none else some leading, v0, none⟩, ?_, ?_, ?_⟩
  · simp [catFrom, hroot, hstart]
  all_goals
    cases v0 with
    | none =>
      simp only [remOf, List.append_nil] at hfile
      cases hch : leading.isEmpty with
      | true =>
        simp only [List.isEmpty_iff.mp hch] at hfile
        simp [streamItems, hch, okChunks, errCount, ← hfile]
      | false =>
        simp [streamItems, hch, okChunks, errCount, ← hfile]
    | some v =>
      have hlt : meas v < fuel := by
        simp only [measOf] at hfuel
        omega
      obtain ⟨hjoin, herr⟩ := walk_decode W store rem meas hW fuel v none hlt
      simp only [remOf] at hfile
      cases hch : leading.isEmpty with
      | true =>
        simp only [List.isEmpty_iff.mp hch, List.nil_append] at hfile
        simp [streamItems, hch, okChunks, errCount, hjoin, herr, hfile]
      | false =>
        simp [streamItems, hch, okChunks_append, okChunks, errCount_append,
          errCount, hjoin, herr, ← hfile]

/-- C1: with no range, when every fetch and decode step succeeds as per the
Walk Capability's stepwise-decode contract, concatenating in order all Ok
chunks of the returned stream is exactly the file's full byte content. -/
theorem cat_noRange_roundTrip {I V C P R : Type} (W : WalkCap I V C)
    (store : Cid → Except LoadError Block)
    (resolve : P → Except ResolveError (R × List String))
    (into_unixfs_block : R → Except PathError Block)
    (sp : StartingPoint P) (fileBytes : Bytes)
    (rem : V → Bytes) (meas : V → Nat)
    (root : Block) (leading : Bytes) (size : Nat) (v0 : Option V) (fuel : Nat)
    (hroot : resolveRoot resolve into_unixfs_block sp = .ok root)
    (hstart : W.start W.default root.data = .ok (leading, size, (), v0))
    (hfile : leading ++ remOf rem v0 = fileBytes)
    (hW : DecodesTo W store rem meas)
    (hfuel : measOf meas v0 ≤ fuel) :
    ∃ s, cat W resolve into_unixfs_block sp none = .ok s ∧
      (okChunks (streamItems W store fuel s)).flatten = fileBytes ∧
      errCount (streamItems W store fuel s) = 0 :=
  catFrom_decode W W.default store resolve into_unixfs_block sp fileBytes rem meas
    root leading size v0 fuel hroot hstart hfile hW hfuel

/-- C2: with a range whose start is below its stop, when every fetch and
decode step succeeds and the range-configured Walk Capability's contract
promises exactly the bytes of `[start, min stop fileLength)`, concatenating
in order all Ok chunks of the returned stream is exactly that interval. -/
theorem cat_range_roundTrip {I V C P R : Type} (W : WalkCap I V C)
    (store : Cid → Except LoadError Block)
    (resolve : P → Except ResolveError (R × List String))
    (into_unixfs_block : R → Except PathError Block)
    (sp : StartingPoint P) (fileBytes : Bytes) (r : Range)
    (rem : V → Bytes) (meas : V → Nat)
    (root : Block) (leading : Bytes) (size : Nat) (v0 : Option V) (fuel : Nat)
    (hr : r.start < r.stop)
    (hroot : resolveRoot resolve into_unixfs_block sp = .ok root)
    (hstart : W.start (W.with_target_range W.default r) root.data = .ok (leading, size, (), v0))
    (hfile : leading ++ remOf rem v0 = rangeSlice fileBytes r)
    (hW : DecodesTo W store rem meas)
    (hfuel : measOf meas v0 ≤ fuel) :
    ∃ s, cat W resolve into_unixfs_block sp (some r) = .ok s ∧
      (okChunks (streamItems W store fuel s)).flatten = rangeSlice fileBytes r ∧
      errCount (streamItems W store fuel s) = 0 :=
  catFrom_decode W (W.with_target_range W.default r) store resolve into_unixfs_block sp
    (rangeSlice fileBytes r) rem meas root leading size v0 fuel hroot hstart hfile hW hfuel

/-- A concrete leaf-list Walk Capability used to instantiate the contract
theorems: the visitor state is the list of leaf identifiers still to be
visited, and each leaf's chunk is the fetched block's data. -/
def leafW (lead : Bytes) (v0 : Option (List Cid)) : WalkCap (Option Range) (List Cid) Nat where
  default := none
  with_target_range := fun _ r => some r
  start := fun _ _ => .ok (lead, 5, (), v0)
  pending_links := fun v => (v.headD 0, v.length)
  continue_walk := fun v data c =>
    match v with
    | [] => .ok ([], none, c)
    | _ :: rest => .ok (data, if rest.isEmpty then none else some rest, c)

/-- A block store holding, for every identifier, a block with the bytes
prescribed by `f`. -/
def leafStore (f : Cid → Bytes) : Cid → Except LoadError Block :=
  fun c => .ok ⟨c, f c⟩

/-- Remaining bytes of a leaf-list visitor state. -/
def leafRem (f : Cid → Bytes) (v : List Cid) : Bytes :=
  (v.map f).flatten

lemma leafW_decodes (lead : Bytes) (v0 : Option (List Cid)) (f : Cid → Bytes) :
    DecodesTo (leafW lead v0) (leafStore f) (leafRem f) List.length := by
  intro v c
  cases v with
  | nil =>
    exact ⟨⟨0, f 0⟩, rfl, [], none, c, rfl, by simp [leafRem, remOf], by simp⟩
  | cons x rest =>
    cases rest with
    | nil =>
      exact ⟨⟨x, f x⟩, rfl, f x, none, c, rfl, by simp [leafRem, remOf], by simp⟩
    | cons y rest =>
      refine ⟨⟨x, f x⟩, rfl, f x, some (y :: rest), c, rfl, ?_, ?_⟩
      · simp [leafRem, remOf]
      · intro v' hv'
        cases hv'
        simp

/-- Witness for C1: a three-block file with leading chunk `[5]` and leaves
`1`, `2` carrying `[10,11]` and `[20,21]` reassembles to the full content. -/
theorem cat_noRange_roundTrip_witness :
    ∃ s, cat (leafW [5] (some [1, 2]))
        (fun _ : Nat => (.error 0 : Except ResolveError (Nat × List String)))
        (fun _ : Nat => (.error 0 : Except PathError Block))
        (.Right ⟨0, [99]⟩) none = .ok s ∧
      (okChunks (streamItems (leafW [5] (some [1, 2]))
        (leafStore fun c => [c * 10, c * 10 + 1]) 3 s)).flatten = [5, 10, 11, 20, 21] ∧
      errCount (streamItems (leafW [5] (some [1, 2]))
        (leafStore fun c => [c * 10, c * 10 + 1]) 3 s) = 0 :=
  cat_noRange_roundTrip (leafW [5] (some [1, 2]))
    (leafStore fun c => [c * 10, c * 10 + 1])
    (fun _ => .error 0) (fun _ => .error 0) (.Right ⟨0, [99]⟩) [5, 10, 11, 20, 21]
    (leafRem fun c => [c * 10, c * 10 + 1]) List.length ⟨0, [99]⟩ [5] 5 (some [1, 2]) 3
    rfl rfl (by decide) (leafW_decodes _ _ _) (by decide)

/-- Witness for C2: requesting `[1, 4)` of the file `[5,10,11,20,21]`
yields exactly `[10, 11, 20]`. -/
theorem cat_range_roundTrip_witness :
    ∃ s, cat (leafW [10, 11] (some [2]))
        (fun _ : Nat => (.error 0 : Except ResolveError (Nat × List String)))
        (fun _ : Nat => (.error 0 : Except PathError Block))
        (.Right ⟨0, [99]⟩) (some ⟨1, 4⟩) = .ok s ∧
      (okChunks (streamItems (leafW [10, 11] (some [2]))
        (leafStore fun c => if c = 2 then [20] else [c]) 2 s)).flatten
        = rangeSlice [5, 10, 11, 20, 21] ⟨1, 4⟩ ∧
      errCount (streamItems (leafW [10, 11] (some [2]))
        (leafStore fun c => if c = 2 then [20] else [c]) 2 s) = 0 :=
  cat_range_roundTrip (leafW [10, 11] (some [2]))
    (leafStore fun c => if c = 2 then [20] else [c])
    (fun _ => .error 0) (fun _ => .error 0) (.Right ⟨0, [99]⟩) [5, 10, 11, 20, 21] ⟨1, 4⟩
    (leafRem fun c => if c = 2 then [20] else [c]) List.length ⟨0, [99]⟩ [10, 11] 5
    (some [2]) 2 (by decide) rfl rfl (by decide) (leafW_decodes _ _ _) (by decide)

/-- Every item list produced by the walk loop is either error-free or a
run of Ok items followed by one final error. -/
lemma walk_shape {I V C : Type} (W : WalkCap I V C) (store : Cid → Except LoadError Block) :
    ∀ (fuel : Nat) (v : V) (c : Option C),
      errCount (walkItems W store fuel v c) = 0 ∨
      ∃ pre e, walkItems W store fuel v c = pre ++ [Except.error e] ∧ errCount pre = 0 := by
  intro fuel
  induction fuel with
  | zero => intro v c; left; rfl
  | succ fuel ih =>
    intro v c
    rcases hst : store (W.pending_links v).1 with e | b
    · right
      exact ⟨[], .Loading (W.pending_links v).1 e,
        by simp [walkItems, walkEvents, hst, yieldsOf], rfl⟩
    · rcases hcw : W.continue_walk v b.data c with e | ⟨bytes, ov, c'⟩
      · right
        exact ⟨[], .Walking b.cid e,
          by simp [walkItems, walkEvents, hst, hcw, yieldsOf], rfl⟩
      · cases ov with
        | none =>
          left
          cases hch : bytes.isEmpty <;>
            simp [walkItems, walkEvents, hst, hcw, hch, yieldsOf, errCount]
        | some v' =>
          have hunf : walkItems W store (fuel + 1) v c =
              (if bytes.isEmpty then [] else [Except.ok bytes]) ++
                walkItems W store fuel v' c' := by
            cases hch : bytes.isEmpty <;>
              simp [walkItems, walkEvents, hst, hcw, hch, yieldsOf, yieldsOf_append]
          rcases ih v' c' with h0 | ⟨pre, e, heq, hpre⟩
          · left
            rw [hunf, errCount_append, h0]
            cases hch : bytes.isEmpty <;> simp [errCount]
          · right
            refine ⟨(if bytes.isEmpty then [] else [Except.ok bytes]) ++ pre, e, ?_, ?_⟩
            · rw [hunf, heq, List.append_assoc]
            · rw [errCount_append, hpre]
              cases hch : bytes.isEmpty <;> simp [errCount]

/-- C3: every stream produced by `cat` either contains no error item at
all, or consists of Ok items followed by exactly one final error item;
nothing is ever yielded after an error. -/
theorem cat_stream_terminal_shape {I V C : Type} (W : WalkCap I V C)
    (store : Cid → Except LoadError Block) (fuel : Nat) (s : CatStream V C) :
    errCount (streamItems W store fuel s) = 0 ∨
    ∃ pre e, streamItems W store fuel s = pre ++ [Except.error e] ∧ errCount pre = 0 := by
  obtain ⟨l, ov, cc⟩ := s
  cases ov with
  | none =>
    left
    cases l <;> simp [streamItems, errCount]
  | some v =>
    rcases walk_shape W store fuel v cc with h0 | ⟨pre, e, heq, hpre⟩
    · left
      cases l <;> simp only [streamItems] <;>
        rw [errCount_append] <;> simp [errCount, h0]
    · right
      cases l with
      | none =>
        refine ⟨pre, e, ?_, hpre⟩
        simp only [streamItems]
        rw [heq]
        simp
      | some b =>
        refine ⟨Except.ok b :: pre, e, ?_, ?_⟩
        · simp only [streamItems]
          rw [heq]
          simp
        · simp [errCount, hpre]

/-- C4: pre-stream failures are returned synchronously from the setup
call: a failed resolution yields `Resolving`, a root that is not a file
encoding yields `Path`, a failed `start` on the root yields `Walking` with
the root's identifier — in each case no stream is constructed. -/
theorem cat_setup_errors {I V C P R : Type} (W : WalkCap I V C)
    (resolve : P → Except ResolveError (R × List String))
    (into_unixfs_block : R → Except PathError Block)
    (range : Option Range) :
    (∀ path e, resolve path = .error e →
      cat W resolve into_unixfs_block (.Left path) range = .error (.Resolving e)) ∧
    (∀ path res rest e, resolve path = .ok (res, rest) →
      into_unixfs_block res = .error e →
      cat W resolve into_unixfs_block (.Left path) range = .error (.Path e)) ∧
    (∀ sp root e, resolveRoot resolve into_unixfs_block sp = .ok root →
      W.start (initialVisit W range) root.data = .error e →
      cat W resolve into_unixfs_block sp range = .error (.Walking root.cid e)) := by
  refine ⟨?_, ?_, ?_⟩
  · intro path e h
    simp [cat, catFrom, resolveRoot, h]
  · intro path res rest e h1 h2
    simp [cat, catFrom, resolveRoot, h1, h2]
  · intro sp root e h1 h2
    simp [cat, catFrom, h1, h2]

/-- A Walk Capability whose `start` always fails with decode error 11,
used to exercise the `Walking` setup failure. -/
def failW : WalkCap Unit Unit Unit where
  default := ()
  with_target_range := fun _ _ => ()
  start := fun _ _ => .error 11
  pending_links := fun _ => (0, 0)
  continue_walk := fun _ _ c => .ok ([], none, c)

/-- Witness for C4: a failing resolver yields `Resolving 7`, a failing
block conversion yields `Path 8`, and a root whose decode fails yields
`Walking 9 11`, all synchronously. -/
theorem cat_setup_errors_witness :
    cat (leafW [] none)
      (fun _ : Nat => (.error 7 : Except ResolveError (Nat × List String)))
      (fun _ : Nat => (.error 0 : Except PathError Block)) (.Left 4) none
      = .error (.Resolving 7) ∧
    cat (leafW [] none)
      (fun _ : Nat => (.ok (3, []) : Except ResolveError (Nat × List String)))
      (fun _ : Nat => (.error 8 : Except PathError Block)) (.Left 4) none
      = .error (.Path 8) ∧
    cat failW
      (fun _ : Nat => (.error 0 : Except ResolveError (Nat × List String)))
      (fun _ : Nat => (.error 0 : Except PathError Block)) (.Right ⟨9, []⟩) none
      = .error (.Walking 9 11) :=
  ⟨(cat_setup_errors (leafW [] none) _ _ none).1 4 7 rfl,
   (cat_setup_errors (leafW [] none) _ _ none).2.1 4 3 [] 8 rfl rfl,
   (cat_setup_errors failW _ _ none).2.2 (.Right ⟨9, []⟩) ⟨9, []⟩ 11 rfl rfl⟩

/-- Every Ok chunk produced by the walk loop is non-empty. -/
lemma walk_ok_nonempty {I V C : Type} (W : WalkCap I V C)
    (store : Cid → Except LoadError Block) :
    ∀ (fuel : Nat) (v : V) (c : Option C) (ch : Bytes),
      Except.ok ch ∈ walkItems W store fuel v c → ch ≠ [] := by
  intro fuel
  induction fuel with
  | zero => intro v c ch h; simp [walkItems, walkEvents, yieldsOf] at h
  | succ fuel ih =>
    intro v c ch h
    rcases hst : store (W.pending_links v).1 with e | b
    · simp [walkItems, walkEvents, hst, yieldsOf] at h
    · rcases hcw : W.continue_walk v b.data c with e | ⟨bytes, ov, c'⟩
      · simp [walkItems, walkEvents, hst, hcw, yieldsOf] at h
      · have hunf : walkItems W store (fuel + 1) v c =
            (if bytes.isEmpty then [] else [Except.ok bytes]) ++
              (match ov with
               | some v' => walkItems W store fuel v' c'
               | none => []) := by
          cases ov <;> cases hch : bytes.isEmpty <;>
            simp [walkItems, walkEvents, hst, hcw, hch, yieldsOf, yieldsOf_append]
        rw [hunf] at h
        rw [List.mem_append] at h
        rcases h with h | h
        · cases hch : bytes.isEmpty with
          | true => simp [hch] at h
          | false =>
            rw [hch] at h
            simp only [Bool.false_eq_true, if_false, List.mem_singleton,
              Except.ok.injEq] at h
            subst h
            intro hc
            rw [hc] at hch
            simp at hch
        · cases ov with
          | none => simp at h
          | some v' => exact ih v' c' ch h

/-- C5: for a stream set up by `cat`, every Ok item is a non-empty chunk;
a non-empty leading chunk from `start` is the first item and the rest of
the stream is exactly the walk loop's output; an empty leading chunk
contributes no item, so the whole stream is the walk loop's output. -/
theorem cat_chunks_nonempty_leading {I V C P R : Type} (W : WalkCap I V C)
    (store : Cid → Except LoadError Block)
    (resolve : P → Except ResolveError (R × List String))
    (into_unixfs_block : R → Except PathError Block)
    (sp : StartingPoint P) (range : Option Range)
    (root : Block) (b0 : Bytes) (size : Nat) (v0 : Option V) (fuel : Nat)
    (hroot : resolveRoot resolve into_unixfs_block sp = .ok root)
    (hstart : W.start (initialVisit W range) root.data = .ok (b0, size, (), v0)) :
    ∃ s, cat W resolve into_unixfs_block sp range = .ok s ∧
      (∀ ch, Except.ok ch ∈ streamItems W store fuel s → ch ≠ []) ∧
      (b0 ≠ [] → streamItems W store fuel s = Except.ok b0 ::
        (match v0 with | some v => walkItems W store fuel v none | none => [])) ∧
      (b0 = [] → streamItems W store fuel s =
        (match v0 with | some v => walkItems W store fuel v none | none => [])) := by
  refine ⟨⟨if b0.isEmpty then none else some b0, v0, none⟩,
    by simp [cat, catFrom, hroot, hstart], ?_, ?_, ?_⟩
  · intro ch hch
    cases hb : b0.isEmpty with
    | true =>
      simp only [streamItems, hb, if_true, List.nil_append] at hch
      cases v0 with
      | none => simp at hch
      | some v => exact walk_ok_nonempty W store fuel v none ch hch
    | false =>
      simp only [streamItems, hb, Bool.false_eq_true, if_false,
        List.cons_append, List.nil_append] at hch
      rw [List.mem_cons] at hch
      rcases hch with h | h
      · simp only [Except.ok.injEq] at h
        subst h
        intro hc
        rw [hc] at hb
        simp at hb
      · cases v0 with
        | none => simp at h
        | some v => exact walk_ok_nonempty W store fuel v none ch h
  · intro hne
    have hb : b0.isEmpty = false := by
      cases hq : b0.isEmpty with
      | true => exact absurd (List.isEmpty_iff.mp hq) hne
      | false => rfl
    cases v0 <;> simp [streamItems, hb]
  · intro heq
    subst heq
    cases v0 <;> simp [streamItems]

/-- Witness for C5: a file with leading chunk `[5]` and one leaf block;
all Ok chunks are non-empty and the leading chunk is the first item. -/
theorem cat_chunks_nonempty_leading_witness :
    ∃ s, cat (leafW [5] (some [1]))
        (fun _ : Nat => (.error 0 : Except ResolveError (Nat × List String)))
        (fun _ : Nat => (.error 0 : Except PathError Block))
        (.Right ⟨0, []⟩) none = .ok s ∧
      (∀ ch, Except.ok ch ∈ streamItems (leafW [5] (some [1]))
        (leafStore fun c => [c]) 2 s → ch ≠ []) ∧
      ([5] ≠ ([] : Bytes) → streamItems (leafW [5] (some [1]))
        (leafStore fun c => [c]) 2 s = Except.ok [5] ::
          (match some [1] with
           | some v => walkItems (leafW [5] (some [1])) (leafStore fun c => [c]) 2 v none
           | none => [])) ∧
      ([5] = ([] : Bytes) → streamItems (leafW [5] (some [1]))
        (leafStore fun c => [c]) 2 s =
          (match some [1] with
           | some v => walkItems (leafW [5] (some [1])) (leafStore fun c => [c]) 2 v none
           | none => [])) :=
  cat_chunks_nonempty_leading (leafW [5] (some [1])) (leafStore fun c => [c])
    (fun _ => .error 0) (fun _ => .error 0) (.Right ⟨0, []⟩) none
    ⟨0, []⟩ [5] 5 (some [1]) 2 rfl rfl

/-- Relation `WalkSteps W store v c chunks vE cE`: starting from visitor state `v`
with cache `c`, the next `chunks.length` fetch-and-decode steps all
succeed, producing `chunks` in order and ending in live state `vE` with
cache `cE`. -/
inductive WalkSteps {I V C : Type} (W : WalkCap I V C)
    (store : Cid → Except LoadError Block) :
    V → Option C → List Bytes → V → Option C → Prop where
  | refl (v : V) (c : Option C) : WalkSteps W store v c [] v c
  | step {v : V} {c : Option C} {b : Block} {chunk : Bytes} {v' : V} {c' : Option C}
      {chunks : List Bytes} {vE : V} {cE : Option C}
      (hb : store (W.pending_links v).1 = .ok b)
      (hcw : W.continue_walk v b.data c = .ok (chunk, some v', c'))
      (hrest : WalkSteps W store v' c' chunks vE cE) :
      WalkSteps W store v c (chunk :: chunks) vE cE

/-- If `k - 1` steps succeed and the `k`-th fetch fails, the walk loop's
items are the non-empty chunks of the successful steps followed by one
final `Loading` error. -/
lemma walk_fail_at {I V C : Type} (W : WalkCap I V C)
    (store : Cid → Except LoadError Block) :
    ∀ (chunks : List Bytes) (v0 : V) (c0 : Option C) (vE : V) (cE : Option C),
      WalkSteps W store v0 c0 chunks vE cE →
      ∀ (fuel : Nat) (e : LoadError), chunks.length < fuel →
        store (W.pending_links vE).1 = .error e →
        walkItems W store fuel v0 c0 =
          (chunks.filter (fun ch => !ch.isEmpty)).map Except.ok ++
            [Except.error (.Loading (W.pending_links vE).1 e)] := by
  intro chunks
  induction chunks with
  | nil =>
    intro v0 c0 vE cE hsteps fuel e hfuel hfail
    cases hsteps
    cases fuel with
    | zero => omega
    | succ fuel => simp [walkItems, walkEvents, hfail, yieldsOf]
  | cons chunk rest ih =>
    intro v0 c0 vE cE hsteps fuel e hfuel hfail
    cases hsteps with
    | step hb hcw hrest =>
      rename_i b v' c'
      cases fuel with
      | zero => simp at hfuel
      | succ fuel =>
        have hrec := ih v' c' vE cE hrest fuel e
          (by simp only [List.length_cons] at hfuel; omega) hfail
        have hunf : walkItems W store (fuel + 1) v0 c0 =
            (if chunk.isEmpty then [] else [Except.ok chunk]) ++
              walkItems W store fuel v' c' := by
          cases hch : chunk.isEmpty <;>
            simp [walkItems, walkEvents, hb, hcw, hch, yieldsOf, yieldsOf_append]
        rw [hunf, hrec]
        cases hch : chunk.isEmpty with
        | true => simp [List.filter_cons, hch]
        | false => simp [List.filter_cons, hch]

/-- C6 amended: when the first `k - 1` fetch-and-decode steps succeed and
the `k`-th fetch fails, a single `Loading` error carrying the failed
identifier is the final item with nothing after it; the Ok chunks
preceding it are exactly the non-empty leading chunk, if any, followed by
the non-empty chunks of the `k - 1` successful steps. -/
theorem cat_fetch_failure_terminal {I V C : Type} (W : WalkCap I V C)
    (store : Cid → Except LoadError Block) (lead : Option Bytes)
    (v0 : V) (c0 : Option C) (chunks : List Bytes) (vE : V) (cE : Option C)
    (fuel : Nat) (e : LoadError)
    (hsteps : WalkSteps W store v0 c0 chunks vE cE)
    (hfail : store (W.pending_links vE).1 = .error e)
    (hfuel : chunks.length < fuel) :
    streamItems W store fuel ⟨lead, some v0, c0⟩ =
      (match lead with | some b => [Except.ok b] | none => []) ++
      (chunks.filter (fun ch => !ch.isEmpty)).map Except.ok ++
      [Except.error (.Loading (W.pending_links vE).1 e)] := by
  simp only [streamItems]
  rw [walk_fail_at W store chunks v0 c0 vE cE hsteps fuel e hfuel hfail]
  cases lead <;> simp

/-- A block store whose every fetch fails with error 3. -/
def failStore : Cid → Except LoadError Block := fun _ => .error 3

/-- Counterexample to C6 as stated: the very first fetch fails (`k = 1`),
so the claim demands exactly zero preceding Ok chunks, yet the non-empty
leading chunk captured from `start` has already been yielded, so one Ok
chunk precedes the `Loading` terminal item. -/
theorem cat_fetch_failure_counterexample :
    cat (leafW [7] (some [1]))
      (fun _ : Nat => (.error 0 : Except ResolveError (Nat × List String)))
      (fun _ : Nat => (.error 0 : Except PathError Block)) (.Right ⟨0, []⟩) none
      = .ok ⟨some [7], some [1], none⟩ ∧
    walkEvents (leafW [7] (some [1])) failStore 4 [1] none =
      [Event.fetch 1, Event.yieldErr (.Loading 1 3)] ∧
    streamItems (leafW [7] (some [1])) failStore 4 ⟨some [7], some [1], none⟩ =
      [Except.ok [7], Except.error (.Loading 1 3)] ∧
    (okChunks (streamItems (leafW [7] (some [1])) failStore 4
      ⟨some [7], some [1], none⟩)).length = 1 :=
  ⟨rfl, rfl, rfl, rfl⟩

/-- A block store that fails exactly on identifier 2. -/
def failAt2Store : Cid → Except LoadError Block :=
  fun c => if c = 2 then .error 3 else .ok ⟨c, [c]⟩

/-- Witness for the amended C6: one successful step producing `[1]`, then
the fetch of block 2 fails; the stream is the leading chunk, the step's
chunk, and one terminal `Loading` error. -/
theorem cat_fetch_failure_terminal_witness :
    streamItems (leafW [7] (some [1, 2])) failAt2Store 3 ⟨some [7], some [1, 2], none⟩ =
      (match some [7] with | some b => [Except.ok b] | none => ([] : List Item)) ++
      (([[1]] : List Bytes).filter (fun ch => !ch.isEmpty)).map Except.ok ++
      [Except.error (.Loading 2 3)] :=
  cat_fetch_failure_terminal (leafW [7] (some [1, 2])) failAt2Store (some [7])
    [1, 2] none [[1]] [2] none 3 3
    (WalkSteps.step rfl rfl (WalkSteps.refl [2] none)) rfl (by decide)

/-- The events a consumer observes when it stops pulling after `n` items:
the trace truncated immediately after its `n`-th yield event. -/
def takeUntilYields : Nat → List Event → List Event
  | 0, _ => []
  | _ + 1, [] => []
  | n + 1, Event.fetch c :: rest => Event.fetch c :: takeUntilYields (n + 1) rest
  | n + 1, Event.yieldOk b :: rest => Event.yieldOk b :: takeUntilYields n rest
  | n + 1, Event.yieldErr e :: rest => Event.yieldErr e :: takeUntilYields n rest

lemma takeUntilYields_isPre (n : Nat) (l : List Event) :
    ∃ rest, l = takeUntilYields n l ++ rest := by
  induction l generalizing n with
  | nil => exact ⟨[], by cases n <;> rfl⟩
  | cons e rest ih =>
    cases n with
    | zero => exact ⟨e :: rest, rfl⟩
    | succ m =>
      cases e with
      | fetch c =>
        obtain ⟨r, hr⟩ := ih (m + 1)
        exact ⟨r, by rw [takeUntilYields, List.cons_append, ← hr]⟩
      | yieldOk b =>
        obtain ⟨r, hr⟩ := ih m
        exact ⟨r, by rw [takeUntilYields, List.cons_append, ← hr]⟩
      | yieldErr e =>
        obtain ⟨r, hr⟩ := ih m
        exact ⟨r, by rw [takeUntilYields, List.cons_append, ← hr]⟩

lemma takeUntilYields_yields (n : Nat) (l : List Event) :
    yieldsOf (takeUntilYields n l) = (yieldsOf l).take n := by
  induction l generalizing n with
  | nil => cases n <;> rfl
  | cons e rest ih =>
    cases n with
    | zero => cases e <;> rfl
    | succ m =>
      cases e with
      | fetch c => simp [takeUntilYields, yieldsOf, ih]
      | yieldOk b => simp [takeUntilYields, yieldsOf, ih]
      | yieldErr e => simp [takeUntilYields, yieldsOf, ih]

/-- The truncated trace depends on the block store only through the
fetches it itself contains: a second store agreeing on those identifiers
produces the identical truncated trace. -/
lemma walkEvents_agree {I V C : Type} (W : WalkCap I V C)
    (store store₂ : Cid → Except LoadError Block) :
    ∀ (fuel n : Nat) (v : V) (c : Option C),
      (∀ cid ∈ fetchesOf (takeUntilYields n (walkEvents W store fuel v c)),
        store₂ cid = store cid) →
      takeUntilYields n (walkEvents W store₂ fuel v c) =
        takeUntilYields n (walkEvents W store fuel v c) := by
  intro fuel
  induction fuel with
  | zero => intro n v c _; rfl
  | succ fuel ih =>
    intro n v c hagree
    cases n with
    | zero => rfl
    | succ m =>
      have hnext : store₂ (W.pending_links v).1 = store (W.pending_links v).1 := by
        apply hagree
        rcases hst : store (W.pending_links v).1 with e | b
        · simp [walkEvents, hst, takeUntilYields, fetchesOf]
        · rcases hcw : W.continue_walk v b.data c with e | ⟨bytes, ov, c'⟩ <;>
            simp [walkEvents, hst, hcw, takeUntilYields, fetchesOf]
      rcases hst : store (W.pending_links v).1 with e | b
      · have h1 : walkEvents W store (fuel + 1) v c =
            Event.fetch (W.pending_links v).1 ::
              [Event.yieldErr (.Loading (W.pending_links v).1 e)] := by
          simp [walkEvents, hst]
        have h2 : walkEvents W store₂ (fuel + 1) v c =
            Event.fetch (W.pending_links v).1 ::
              [Event.yieldErr (.Loading (W.pending_links v).1 e)] := by
          simp [walkEvents, hnext, hst]
        rw [h1, h2]
      · rcases hcw : W.continue_walk v b.data c with e | ⟨bytes, ov, c'⟩
        · have h1 : walkEvents W store (fuel + 1) v c =
              Event.fetch (W.pending_links v).1 ::
                [Event.yieldErr (.Walking b.cid e)] := by
            simp [walkEvents, hst, hcw]
          have h2 : walkEvents W store₂ (fuel + 1) v c =
              Event.fetch (W.pending_links v).1 ::
                [Event.yieldErr (.Walking b.cid e)] := by
            simp [walkEvents, hnext, hst, hcw]
          rw [h1, h2]
        · cases ov with
          | none =>
            have h1 : walkEvents W store (fuel + 1) v c =
                Event.fetch (W.pending_links v).1 ::
                  (if bytes.isEmpty then [] else [Event.yieldOk bytes]) := by
              simp [walkEvents, hst, hcw]
            have h2 : walkEvents W store₂ (fuel + 1) v c =
                Event.fetch (W.pending_links v).1 ::
                  (if bytes.isEmpty then [] else [Event.yieldOk bytes]) := by
              simp [walkEvents, hnext, hst, hcw]
            rw [h1, h2]
          | some v' =>
            have h1 : walkEvents W store (fuel + 1) v c =
                Event.fetch (W.pending_links v).1 ::
                  ((if bytes.isEmpty then [] else [Event.yieldOk bytes]) ++
                    walkEvents W store fuel v' c') := by
              simp [walkEvents, hst, hcw]
            have h2 : walkEvents W store₂ (fuel + 1) v c =
                Event.fetch (W.pending_links v).1 ::
                  ((if bytes.isEmpty then [] else [Event.yieldOk bytes]) ++
                    walkEvents W store₂ fuel v' c') := by
              simp [walkEvents, hnext, hst, hcw]
            rw [h1, h2]
            cases hch : bytes.isEmpty with
            | true =>
              simp only [hch, if_true, List.append_eq, List.nil_append, takeUntilYields]
              rw [ih (m + 1) v' c' ?_]
              intro cid hcid
              apply hagree
              rw [h1]
              simp only [hch, if_true, List.append_eq, List.nil_append,
                takeUntilYields, fetchesOf]
              right
              exact hcid
            | false =>
              simp only [hch, Bool.false_eq_true, if_false, List.cons_append,
                List.append_eq, List.nil_append, takeUntilYields]
              rw [ih m v' c' ?_]
              intro cid hcid
              apply hagree
              rw [h1]
              simp only [hch, Bool.false_eq_true, if_false, List.cons_append,
                List.append_eq, List.nil_append, takeUntilYields, fetchesOf]
              right
              exact hcid

/-- C7: a consumer that stops pulling after `n` items observes only the
truncated trace: that truncation is a prefix of the full trace, its yields
are exactly the first `n` items, and it is completely insensitive to the
block store outside the fetches it itself issued — so no fetch beyond
those needed for the `n` items can influence, or be observed by, the
stopped stream. -/
theorem cat_pull_bounded_fetches {I V C : Type} (W : WalkCap I V C)
    (store store₂ : Cid → Except LoadError Block) (fuel n : Nat) (v : V) (c : Option C)
    (hagree : ∀ cid ∈ fetchesOf (takeUntilYields n (walkEvents W store fuel v c)),
      store₂ cid = store cid) :
    (∃ rest, walkEvents W store fuel v c =
      takeUntilYields n (walkEvents W store fuel v c) ++ rest) ∧
    yieldsOf (takeUntilYields n (walkEvents W store fuel v c)) =
      (walkItems W store fuel v c).take n ∧
    takeUntilYields n (walkEvents W store₂ fuel v c) =
      takeUntilYields n (walkEvents W store fuel v c) :=
  ⟨takeUntilYields_isPre n _, takeUntilYields_yields n _,
    walkEvents_agree W store store₂ fuel n v c hagree⟩

/-- Witness for C7: stopping after 1 item of a two-leaf file issues only
the first fetch, so a store corrupted at the second leaf (`failAt2Store`)
yields the identical truncated trace. -/
theorem cat_pull_bounded_fetches_witness :
    (∃ rest, walkEvents (leafW [] (some [1, 2])) (leafStore fun c => [c]) 3 [1, 2] none =
      takeUntilYields 1 (walkEvents (leafW [] (some [1, 2]))
        (leafStore fun c => [c]) 3 [1, 2] none) ++ rest) ∧
    yieldsOf (takeUntilYields 1 (walkEvents (leafW [] (some [1, 2]))
        (leafStore fun c => [c]) 3 [1, 2] none)) =
      (walkItems (leafW [] (some [1, 2])) (leafStore fun c => [c]) 3 [1, 2] none).take 1 ∧
    takeUntilYields 1 (walkEvents (leafW [] (some [1, 2])) failAt2Store 3 [1, 2] none) =
      takeUntilYields 1 (walkEvents (leafW [] (some [1, 2]))
        (leafStore fun c => [c]) 3 [1, 2] none) :=
  cat_pull_bounded_fetches (leafW [] (some [1, 2])) (leafStore fun c => [c])
    failAt2Store 3 1 [1, 2] none (by decide)

/-- C8: `cat` is deterministic in its collaborators' responses: two
invocations with the same starting point and range, whose resolver, block
conversion and block store respond identically, return the same setup
result and byte-identical item sequences. -/
theorem cat_deterministic {I V C P R : Type} (W : WalkCap I V C)
    (store₁ store₂ : Cid → Except LoadError Block)
    (resolve₁ resolve₂ : P → Except ResolveError (R × List String))
    (iub₁ iub₂ : R → Except PathError Block)
    (sp : StartingPoint P) (range : Option Range) (fuel : Nat)
    (hres : ∀ p, resolve₁ p = resolve₂ p)
    (hiub : ∀ x, iub₁ x = iub₂ x)
    (hstore : ∀ cid, store₁ cid = store₂ cid) :
    cat W resolve₁ iub₁ sp range = cat W resolve₂ iub₂ sp range ∧
    ∀ s : CatStream V C, streamItems W store₁ fuel s = streamItems W store₂ fuel s := by
  have h1 : resolve₁ = resolve₂ := funext hres
  have h2 : iub₁ = iub₂ := funext hiub
  have h3 : store₁ = store₂ := funext hstore
  subst h1 h2 h3
  exact ⟨rfl, fun _ => rfl⟩

/-- Witness for C8: two syntactically different but pointwise-equal block
stores and resolvers give identical setup results and identical streams. -/
theorem cat_deterministic_witness :
    cat (leafW [5] (some [1, 2]))
      (fun _ : Nat => (.error 0 : Except ResolveError (Nat × List String)))
      (fun _ : Nat => (.error 0 : Except PathError Block)) (.Right ⟨0, []⟩) none =
    cat (leafW [5] (some [1, 2]))
      (fun p : Nat => (.error (p * 0) : Except ResolveError (Nat × List String)))
      (fun _ : Nat => (.error 0 : Except PathError Block)) (.Right ⟨0, []⟩) none ∧
    ∀ s : CatStream (List Cid) Nat,
      streamItems (leafW [5] (some [1, 2])) (leafStore fun c => [c]) 3 s =
      streamItems (leafW [5] (some [1, 2])) (fun c => .ok ⟨c, [c]⟩) 3 s :=
  cat_deterministic (leafW [5] (some [1, 2])) (leafStore fun c => [c])
    (fun c => .ok ⟨c, [c]⟩) (fun _ => .error 0) (fun p => .error (p * 0))
    (fun _ => .error 0) (fun _ => .error 0) (.Right ⟨0, []⟩) none 3
    (fun p => by simp) (fun _ => rfl) (fun _ => rfl)

/-- Every error item produced by the walk loop is a `Loading` or a
`Walking` error. -/
lemma walk_err_shape {I V C : Type} (W : WalkCap I V C)
    (store : Cid → Except LoadError Block) :
    ∀ (fuel : Nat) (v : V) (c : Option C) (e : TraversalFailed),
      Except.error e ∈ walkItems W store fuel v c →
      (∃ cid err, e = .Loading cid err) ∨ (∃ cid err, e = .Walking cid err) := by
  intro fuel
  induction fuel with
  | zero => intro v c e h; simp [walkItems, walkEvents, yieldsOf] at h
  | succ fuel ih =>
    intro v c e h
    rcases hst : store (W.pending_links v).1 with er | b
    · simp [walkItems, walkEvents, hst, yieldsOf] at h
      exact Or.inl ⟨_, _, h⟩
    · rcases hcw : W.continue_walk v b.data c with er | ⟨bytes, ov, c'⟩
      · simp [walkItems, walkEvents, hst, hcw, yieldsOf] at h
        exact Or.inr ⟨_, _, h⟩
      · have hunf : walkItems W store (fuel + 1) v c =
            (if bytes.isEmpty then [] else [Except.ok bytes]) ++
              (match ov with
               | some v' => walkItems W store fuel v' c'
               | none => []) := by
          cases ov <;> cases hch : bytes.isEmpty <;>
            simp [walkItems, walkEvents, hst, hcw, hch, yieldsOf, yieldsOf_append]
        rw [hunf, List.mem_append] at h
        rcases h with h | h
        · cases hch : bytes.isEmpty with
          | true => simp [hch] at h
          | false =>
            rw [hch] at h
            simp at h
        · cases ov with
          | none => simp at h
          | some v' => exact ih v' c' e h

/-- C9: starting from an already-resolved block, the resolver and block
conversion are never consulted (the result is identical for any two of
them), a setup failure can only be `Walking`, and no stream item can ever
carry a `Resolving` or `Path` error — only `Loading` or `Walking`. -/
theorem cat_right_no_resolver {I V C P R : Type} (W : WalkCap I V C)
    (store : Cid → Except LoadError Block) (b : Block) (range : Option Range) (fuel : Nat)
    (resolve₁ resolve₂ : P → Except ResolveError (R × List String))
    (iub₁ iub₂ : R → Except PathError Block) :
    cat W resolve₁ iub₁ (.Right b) range = cat W resolve₂ iub₂ (.Right b) range ∧
    (∀ e, cat W resolve₁ iub₁ (.Right b) range = .error e →
      ∃ cid err, e = .Walking cid err) ∧
    (∀ (s : CatStream V C) (e : TraversalFailed),
      Except.error e ∈ streamItems W store fuel s →
      (∃ cid err, e = .Loading cid err) ∨ (∃ cid err, e = .Walking cid err)) := by
  refine ⟨rfl, ?_, ?_⟩
  · intro e he
    rcases hst : W.start (initialVisit W range) b.data with er | ⟨bytes, size, u, v⟩
    · simp [cat, catFrom, resolveRoot, hst] at he
      exact ⟨b.cid, er, he.symm⟩
    · simp [cat, catFrom, resolveRoot, hst] at he
  · intro s e he
    obtain ⟨l, ov, cc⟩ := s
    simp only [streamItems] at he
    rw [List.mem_append] at he
    rcases he with he | he
    · cases l with
      | none => simp at he
      | some lb => simp at he
    · cases ov with
      | none => simp at he
      | some v => exact walk_err_shape W store fuel v cc e he

/-- Witness for C9: with the root given as a block, swapping the resolver
changes nothing; the only setup error of `failW` is `Walking`; errors in a
concrete failing stream are `Loading`. -/
theorem cat_right_no_resolver_witness :
    cat failW (fun _ : Nat => (.error 4 : Except ResolveError (Nat × List String)))
      (fun _ : Nat => (.error 5 : Except PathError Block)) (.Right ⟨9, []⟩) none =
    cat failW (fun _ : Nat => (.ok (0, []) : Except ResolveError (Nat × List String)))
      (fun _ : Nat => (.ok ⟨0, []⟩ : Except PathError Block)) (.Right ⟨9, []⟩) none ∧
    (∀ e, cat failW (fun _ : Nat => (.error 4 : Except ResolveError (Nat × List String)))
      (fun _ : Nat => (.error 5 : Except PathError Block)) (.Right ⟨9, []⟩) none
        = .error e → ∃ cid err, e = .Walking cid err) ∧
    (∀ (s : CatStream Unit Unit) (e : TraversalFailed),
      Except.error e ∈ streamItems failW failStore 2 s →
      (∃ cid err, e = .Loading cid err) ∨ (∃ cid err, e = .Walking cid err)) :=
  cat_right_no_resolver failW failStore ⟨9, []⟩ none 2
    (fun _ => .error 4) (fun _ => .ok (0, [])) (fun _ => .error 5) (fun _ => .ok ⟨0, []⟩)

/-- C10: `cat` performs no validation of the supplied range: every range,
an inverted one included, is forwarded unchanged to `with_target_range`
before `start`, and setup succeeds whenever root acquisition and `start`
succeed — no condition on the range's endpoints is ever checked. -/
theorem cat_range_unvalidated {I V C P R : Type} (W : WalkCap I V C)
    (resolve : P → Except ResolveError (R × List String))
    (iub : R → Except PathError Block)
    (sp : StartingPoint P) (r : Range) :
    cat W resolve iub sp (some r) =
      catFrom W (W.with_target_range W.default r) resolve iub sp ∧
    (∀ root leading size v0, resolveRoot resolve iub sp = .ok root →
      W.start (W.with_target_range W.default r) root.data = .ok (leading, size, (), v0) →
      ∃ s, cat W resolve iub sp (some r) = .ok s) := by
  refine ⟨rfl, ?_⟩
  intro root leading size v0 h1 h2
  exact ⟨⟨if leading.isEmpty then none else some leading, v0, none⟩,
    by simp [cat, catFrom, initialVisit, h1, h2]⟩

/-- Witness for C10: the inverted range `[5, 2)` is accepted untouched and
setup still succeeds. -/
theorem cat_range_unvalidated_witness :
    cat (leafW [] none)
      (fun _ : Nat => (.error 0 : Except ResolveError (Nat × List String)))
      (fun _ : Nat => (.error 0 : Except PathError Block)) (.Right ⟨0, []⟩) (some ⟨5, 2⟩) =
      catFrom (leafW [] none) ((leafW [] none).with_target_range (leafW [] none).default ⟨5, 2⟩)
        (fun _ : Nat => (.error 0 : Except ResolveError (Nat × List String)))
        (fun _ : Nat => (.error 0 : Except PathError Block)) (.Right ⟨0, []⟩) ∧
    (∀ root leading size v0,
      resolveRoot (fun _ : Nat => (.error 0 : Except ResolveError (Nat × List String)))
        (fun _ : Nat => (.error 0 : Except PathError Block)) (.Right ⟨0, []⟩) = .ok root →
      (leafW [] none).start ((leafW [] none).with_target_range (leafW [] none).default ⟨5, 2⟩)
        root.data = .ok (leading, size, (), v0) →
      ∃ s, cat (leafW [] none)
        (fun _ : Nat => (.error 0 : Except ResolveError (Nat × List String)))
        (fun _ : Nat => (.error 0 : Except PathError Block)) (.Right ⟨0, []⟩)
        (some ⟨5, 2⟩) = .ok s) :=
  cat_range_unvalidated (leafW [] none) (fun _ => .error 0) (fun _ => .error 0)
    (.Right ⟨0, []⟩) ⟨5, 2⟩

end CasperArchiver
